import Mathlib

/-!
Shallow embedding of the multiboot2 core (src/multiboot2/src/rsdp.rs and
src/multiboot2/src/boot_loader_name.rs) together with theorems settling the
frozen claims about it.

Machine integers are modelled as Nat; wrapping 8-bit arithmetic is explicit
modulo 256.  Structs are Lean structures; the byte image that the Rust code
obtains with slice::from_raw_parts over a repr(C, align(8)) struct is
modelled by an explicit serialization function listing the defined bytes in
field order (repr(C) assigns increasing offsets without internal padding
here, since every field offset is already naturally aligned).
-/

/-- Little-endian byte image of a u32 value. -/
def u32le (x : Nat) : List Nat :=
  [x % 256, x / 256 % 256, x / 65536 % 256, x / 16777216 % 256]

/-- Little-endian byte image of a u64 value. -/
def u64le (x : Nat) : List Nat :=
  [x % 256, x / 256 % 256, x / 65536 % 256, x / 16777216 % 256,
   x / 4294967296 % 256, x / 1099511627776 % 256,
   x / 281474976710656 % 256, x / 72057594037927936 % 256]

/-- The fold the checksum code performs:
    bytes.iter().fold(0u8, acc.wrapping_add(val)), as Nat modulo 256. -/
def wsum8 (l : List Nat) : Nat :=
  l.foldl (fun acc v => (acc + v) % 256) 0

/-- Round n up to the next multiple of a (Rust layout: struct size is rounded
    up to the struct alignment). -/
def alignUpTo (n a : Nat) : Nat := (n + a - 1) / a * a

/-- The fixed 8-byte tag prefix: type identifier and total size
    (crate type TagHeader; its file is not under src, but its two u32 fields
    and constructor are fixed by the spec's Tag Header Model). -/
structure TagHeader where
  typ : Nat
  size : Nat
deriving DecidableEq

/-- TagHeader::new(typ, size). -/
def TagHeader.new (typ size : Nat) : TagHeader := ⟨typ, size⟩

/-- TagType::AcpiV1 discriminant (multiboot2 protocol value). -/
def tagTypeAcpiV1 : Nat := 14

/-- TagType::AcpiV2 discriminant (multiboot2 protocol value). -/
def tagTypeAcpiV2 : Nat := 15

/-- RSDPV1_LENGTH from rsdp.rs. -/
def RSDPV1_LENGTH : Nat := 20

/-- RsdpV1Tag from rsdp.rs: header, signature[8], checksum, oem_id[6],
    revision, rsdt_address: u32.  Defined bytes span 28 = 8 + 20. -/
structure RsdpV1Tag where
  header : TagHeader
  signature : Fin 8 → Nat
  checksum : Nat
  oem_id : Fin 6 → Nat
  revision : Nat
  rsdt_address : Nat

/-- size_of::<RsdpV1Tag>(): repr(C) lays the fields at offsets
    0, 8, 16, 17, 23, 24 (all naturally aligned, no internal padding), the
    last field ends at 28, and align(8) rounds the size up to 32. -/
def RsdpV1Tag.sizeOfSelf : Nat := alignUpTo (8 + 8 + 1 + 6 + 1 + 4) 8

/-- RsdpV1Tag::new: header is TagHeader::new(Self::ID, size_of::<Self>()). -/
def RsdpV1Tag.new (signature : Fin 8 → Nat) (checksum : Nat)
    (oem_id : Fin 6 → Nat) (revision : Nat) (rsdt_address : Nat) :
    RsdpV1Tag :=
  { header := TagHeader.new tagTypeAcpiV1 RsdpV1Tag.sizeOfSelf
    signature := signature
    checksum := checksum
    oem_id := oem_id
    revision := revision
    rsdt_address := rsdt_address }

/-- The 20 ACPI-defined bytes of an RsdpV1Tag, i.e. the struct's byte image
    at offsets 8 to 28 (after the 8-byte tag header). -/
def RsdpV1Tag.acpiBytes (t : RsdpV1Tag) : List Nat :=
  [t.signature 0, t.signature 1, t.signature 2, t.signature 3,
   t.signature 4, t.signature 5, t.signature 6, t.signature 7,
   t.checksum,
   t.oem_id 0, t.oem_id 1, t.oem_id 2, t.oem_id 3, t.oem_id 4, t.oem_id 5,
   t.revision] ++ u32le t.rsdt_address

/-- The defined byte image of an RsdpV1Tag (28 bytes: 8-byte header then the
    20 ACPI-defined bytes), as read by slice::from_raw_parts(self, 28). -/
def RsdpV1Tag.bytes (t : RsdpV1Tag) : List Nat :=
  u32le t.header.typ ++ u32le t.header.size ++ t.acpiBytes

/-- RsdpV1Tag::checksum_is_valid: take the struct's first
    RSDPV1_LENGTH + 8 = 28 bytes (the whole defined image), drop the 8
    header bytes, fold with u8 wrapping_add from 0, compare with 0. -/
def RsdpV1Tag.checksum_is_valid (t : RsdpV1Tag) : Bool :=
  wsum8 ((RsdpV1Tag.bytes t).drop 8) == 0

/-- RsdpV2Tag from rsdp.rs: RsdpV1 fields plus length, xsdt_address,
    ext_checksum and 3 reserved bytes.  Defined bytes span 44 = 8 + 36. -/
structure RsdpV2Tag where
  header : TagHeader
  signature : Fin 8 → Nat
  checksum : Nat
  oem_id : Fin 6 → Nat
  revision : Nat
  rsdt_address : Nat
  length : Nat
  xsdt_address : Nat
  ext_checksum : Nat
  _reserved : Fin 3 → Nat

/-- size_of::<RsdpV2Tag>(): field offsets 0, 8, 16, 17, 23, 24, 28, 32, 40,
    41 (all naturally aligned), last field ends at 44, align(8) rounds the
    size up to 48. -/
def RsdpV2Tag.sizeOfSelf : Nat :=
  alignUpTo (8 + 8 + 1 + 6 + 1 + 4 + 4 + 8 + 1 + 3) 8

/-- RsdpV2Tag::new: no parameter for the reserved bytes, which are set to
    zero; header is TagHeader::new(Self::ID, size_of::<Self>()). -/
def RsdpV2Tag.new (signature : Fin 8 → Nat) (checksum : Nat)
    (oem_id : Fin 6 → Nat) (revision : Nat) (rsdt_address : Nat)
    (length : Nat) (xsdt_address : Nat) (ext_checksum : Nat) : RsdpV2Tag :=
  { header := TagHeader.new tagTypeAcpiV2 RsdpV2Tag.sizeOfSelf
    signature := signature
    checksum := checksum
    oem_id := oem_id
    revision := revision
    rsdt_address := rsdt_address
    length := length
    xsdt_address := xsdt_address
    ext_checksum := ext_checksum
    _reserved := fun _ => 0 }

/-- The 36 ACPI-defined bytes of an RsdpV2Tag: the struct's byte image at
    offsets 8 to 44 (after the 8-byte tag header). -/
def RsdpV2Tag.acpiBytes (t : RsdpV2Tag) : List Nat :=
  ([t.signature 0, t.signature 1, t.signature 2, t.signature 3,
    t.signature 4, t.signature 5, t.signature 6, t.signature 7,
    t.checksum,
    t.oem_id 0, t.oem_id 1, t.oem_id 2, t.oem_id 3, t.oem_id 4, t.oem_id 5,
    t.revision] ++ u32le t.rsdt_address) ++
  u32le t.length ++ u64le t.xsdt_address ++
  [t.ext_checksum, t._reserved 0, t._reserved 1, t._reserved 2]

/-- The defined byte image of an RsdpV2Tag (44 bytes: 8-byte header then the
    36 ACPI-defined bytes). -/
def RsdpV2Tag.bytes (t : RsdpV2Tag) : List Nat :=
  u32le t.header.typ ++ u32le t.header.size ++ t.acpiBytes

/-- RsdpV2Tag::checksum_is_valid: slice::from_raw_parts(self, length + 8)
    (modelled as taking length + 8 bytes of the image; faithful while
    length + 8 stays within the 44 defined bytes, i.e. length at most 36),
    drop the 8 header bytes, fold with u8 wrapping_add from 0, compare 0. -/
def RsdpV2Tag.checksum_is_valid (t : RsdpV2Tag) : Bool :=
  wsum8 (((RsdpV2Tag.bytes t).take (t.length + 8)).drop 8) == 0

/-- Error taxonomy named by the spec's design note for the truncation
    strategy. -/
inductive RsdpChecksumError where
  | lengthExceedsRegion
deriving DecidableEq

/-- Modelled from the spec: design-note strategy (spec section 9) in which
    the checksum function receives a slice already truncated to the
    caller-validated region and returns a taxonomy error, "length exceeds
    available region", instead of performing the read when the declared
    length exceeds that region.  No function under src implements this; the
    definition follows the spec's words for comparison with the code. -/
def specTruncatedChecksum (region : List Nat) (length : Nat) :
    Except RsdpChecksumError Bool :=
  if region.length < length then .error .lengthExceedsRegion
  else .ok (wsum8 (region.take length) == 0)

/-! ### Boot loader name tag and its string payload decoder -/

/-- METADATA_SIZE from boot_loader_name.rs:
    size_of TagTypeId + size_of u32 = 4 + 4. -/
def METADATA_SIZE : Nat := 4 + 4

/-- The base Tag view (crate type Tag; its file is not under src, but
    dst_size only reads its size field, fixed by the spec's data model). -/
structure Tag where
  typ : Nat
  size : Nat
deriving DecidableEq

/-- A failed assert! is modelled as this error, not as a recoverable
    result. -/
inductive PanicKind where
  | assertionFailed
deriving DecidableEq

/-- BootLoaderNameTag::dst_size: assert!(base_tag.size >= METADATA_SIZE),
    then base_tag.size - METADATA_SIZE. -/
def BootLoaderNameTag.dst_size (base_tag : Tag) : Except PanicKind Nat :=
  if METADATA_SIZE ≤ base_tag.size then .ok (base_tag.size - METADATA_SIZE)
  else .error .assertionFailed

/-- UTF-8 continuation byte: 0x80 to 0xBF. -/
def isUtf8Cont (b : Nat) : Bool := 128 ≤ b && b ≤ 191

/-- Allowed range of the first continuation byte given the lead byte
    (the RFC 3629 table, as checked by Rust core's UTF-8 validation):
    lead 0xE0 narrows to 0xA0-0xBF, 0xED to 0x80-0x9F, 0xF0 to 0x90-0xBF,
    0xF4 to 0x80-0x8F; all other leads allow 0x80-0xBF. -/
def utf8Cont1Ok (lead b : Nat) : Bool :=
  if lead = 224 then 160 ≤ b && b ≤ 191
  else if lead = 237 then 128 ≤ b && b ≤ 159
  else if lead = 240 then 144 ≤ b && b ≤ 191
  else if lead = 244 then 128 ≤ b && b ≤ 143
  else isUtf8Cont b

/-- Continuation check for a 2-byte sequence: the byte after the lead must
    exist and be a continuation byte. -/
def step2 : List Nat → Option Nat
  | b1 :: _ => if isUtf8Cont b1 then some 2 else none
  | [] => none

/-- Continuation check for a 3-byte sequence with the given lead byte. -/
def step3 (lead : Nat) : List Nat → Option Nat
  | b1 :: b2 :: _ =>
    if utf8Cont1Ok lead b1 && isUtf8Cont b2 then some 3 else none
  | _ => none

/-- Continuation check for a 4-byte sequence with the given lead byte. -/
def step4 (lead : Nat) : List Nat → Option Nat
  | b1 :: b2 :: b3 :: _ =>
    if utf8Cont1Ok lead b1 && isUtf8Cont b2 && isUtf8Cont b3 then some 4
    else none
  | _ => none

/-- Byte length of the UTF-8 sequence starting the list, none when the
    list is empty or starts with an invalid or incomplete sequence:
    lead 0x00-0x7F is a 1-byte sequence, 0xC2-0xDF leads 2 bytes,
    0xE0-0xEF leads 3, 0xF0-0xF4 leads 4, anything else (a bare
    continuation byte, the overlong leads 0xC0/0xC1, or 0xF5-0xFF) is
    invalid. -/
def utf8StepLen : List Nat → Option Nat
  | [] => none
  | b :: rest =>
    if b ≤ 127 then some 1
    else if 194 ≤ b && b ≤ 223 then step2 rest
    else if 224 ≤ b && b ≤ 239 then step3 b rest
    else if 240 ≤ b && b ≤ 244 then step4 b rest
    else none

/-- Models core::str::from_utf8's validation loop (greedy left-to-right
    decoding); on failure the error value is Utf8Error::valid_up_to, the
    byte offset at which the first invalid sequence starts.  The argument i
    is the offset of the list's head in the original input; the fuel only
    drives the recursion and never runs out when it starts at the list's
    length, since every step consumes at least one byte. -/
def fromUtf8Fuel : Nat → Nat → List Nat → Except Nat Unit
  | _, _, [] => .ok ()
  | 0, i, _ :: _ => .error i
  | fuel + 1, i, b :: rest =>
    match utf8StepLen (b :: rest) with
    | some k => fromUtf8Fuel fuel (i + k) ((b :: rest).drop k)
    | none => .error i

/-- core::str::from_utf8 over a byte list: the list itself on success
    (a str is its UTF-8 bytes), the valid_up_to offset on failure. -/
def rustFromUtf8 (l : List Nat) : Except Nat (List Nat) :=
  match fromUtf8Fuel l.length 0 l with
  | .ok _ => .ok l
  | .error i => .error i

/-- Whether a byte list is valid UTF-8. -/
def isValidUtf8 (l : List Nat) : Bool :=
  match fromUtf8Fuel l.length 0 l with
  | .ok _ => true
  | .error _ => false

/-- Index of the first null byte of a list, if any. -/
def firstNullIdx : List Nat → Option Nat
  | [] => none
  | b :: r => if b = 0 then some 0 else (firstNullIdx r).map (· + 1)

/-- The sub-slice submitted to UTF-8 validation: the bytes strictly before
    the first null byte, or the whole slice when no null byte exists. -/
def strSliceUntilNull (bytes : List Nat) : List Nat :=
  match firstNullIdx bytes with
  | some p => bytes.take p
  | none => bytes

/-- Modelled from the spec: Tag::get_dst_str_slice (tag.rs is not under
    src); spec section 4.3: locate the first null byte; if found, validate
    the bytes strictly before it as UTF-8 and return that string; if
    absent, validate the entire slice as UTF-8 and return it. -/
def Tag.get_dst_str_slice (bytes : List Nat) : Except Nat (List Nat) :=
  rustFromUtf8 (strSliceUntilNull bytes)

/-- TagType::BootLoaderName discriminant (multiboot2 protocol value). -/
def tagTypeBootLoaderName : Nat := 2

/-- BootLoaderNameTag from boot_loader_name.rs: typ, size, then the
    trailing name payload bytes. -/
structure BootLoaderNameTag where
  typ : Nat
  size : Nat
  name : List Nat
deriving DecidableEq

/-- BootLoaderNameTag::new: collect the string's bytes; if they do not
    already end with a null byte, push one; then hand them to the builder.
    The final header is modelled from the spec (BoxedDst::new is not under
    src): spec section 4.5, size = header_size + content length with
    terminator, buffer = header followed by content. -/
def BootLoaderNameTag.new (s : List Nat) : BootLoaderNameTag :=
  let bytes := if s.getLast? = some 0 then s else s ++ [0]
  { typ := tagTypeBootLoaderName
    size := METADATA_SIZE + bytes.length
    name := bytes }

/-- BootLoaderNameTag::name(): Tag::get_dst_str_slice(&self.name). -/
def BootLoaderNameTag.getName (t : BootLoaderNameTag) :
    Except Nat (List Nat) :=
  Tag.get_dst_str_slice t.name

/-! ### Arithmetic about the wrapping fold -/

theorem foldl_wrap256 (l : List Nat) (a : Nat) :
    l.foldl (fun acc v => (acc + v) % 256) (a % 256) = (a + l.sum) % 256 := by
  induction l generalizing a with
  | nil => simp
  | cons v l ih =>
    simp only [List.foldl_cons, List.sum_cons]
    rw [Nat.mod_add_mod, ih (a + v), Nat.add_assoc]

theorem wsum8_eq_sum_mod (l : List Nat) : wsum8 l = l.sum % 256 := by
  have h := foldl_wrap256 l 0
  simpa [wsum8] using h

theorem length_u32le (x : Nat) : (u32le x).length = 4 := rfl

theorem length_u64le (x : Nat) : (u64le x).length = 8 := rfl

theorem rsdpV1_bytes_drop8 (t : RsdpV1Tag) :
    (RsdpV1Tag.bytes t).drop 8 = t.acpiBytes := by
  simp [RsdpV1Tag.bytes, u32le, List.drop_append]

theorem rsdpV1_acpiBytes_length (t : RsdpV1Tag) : t.acpiBytes.length = 20 :=
  rfl

theorem rsdpV2_bytes_drop8 (t : RsdpV2Tag) :
    (RsdpV2Tag.bytes t).drop 8 = t.acpiBytes := by
  simp [RsdpV2Tag.bytes, u32le, List.drop_append]

theorem rsdpV2_acpiBytes_length (t : RsdpV2Tag) : t.acpiBytes.length = 36 :=
  rfl

/-! ### Claims about the RSDP tags -/

/-- C3: for every RSDP-v1 tag, checksum_is_valid() returns true iff the
    8-bit wraparound sum of the 20 ACPI-defined bytes at offsets 8 to 28
    of the struct equals 0, and the result never depends on the 8 header
    bytes: replacing the header (type_id, size) leaves it unchanged. -/
theorem c3_rsdpv1_checksum_iff (t : RsdpV1Tag) :
    (RsdpV1Tag.checksum_is_valid t = true ↔
      (((RsdpV1Tag.bytes t).drop 8).take 20).sum % 256 = 0) ∧
    (∀ h : TagHeader,
      RsdpV1Tag.checksum_is_valid { t with header := h } =
        RsdpV1Tag.checksum_is_valid t) := by
  constructor
  · rw [RsdpV1Tag.checksum_is_valid, rsdpV1_bytes_drop8,
      List.take_of_length_le (by rw [rsdpV1_acpiBytes_length]),
      wsum8_eq_sum_mod]
    exact beq_iff_eq
  · intro h
    rw [RsdpV1Tag.checksum_is_valid, RsdpV1Tag.checksum_is_valid,
      rsdpV1_bytes_drop8, rsdpV1_bytes_drop8]
    rfl

theorem rsdpV2_slice_comm (t : RsdpV2Tag) :
    ((RsdpV2Tag.bytes t).take (t.length + 8)).drop 8 =
      ((RsdpV2Tag.bytes t).drop 8).take t.length := by
  rw [List.drop_take]
  simp

/-- C1: for every RSDP-v2 tag (within the struct's 36 defined ACPI bytes,
    the region the raw-pointer read stays inside), checksum_is_valid()
    returns true iff the modulo-256 sum of the length bytes immediately
    following the 8-byte tag header, range 8 to 8 + length, equals 0. -/
theorem c1_rsdpv2_checksum_iff (t : RsdpV2Tag) (h : t.length ≤ 36) :
    RsdpV2Tag.checksum_is_valid t = true ↔
      (((RsdpV2Tag.bytes t).drop 8).take t.length).sum % 256 = 0 := by
  rw [RsdpV2Tag.checksum_is_valid, rsdpV2_slice_comm, wsum8_eq_sum_mod]
  exact beq_iff_eq

/-- Concrete RSDP-v2 tag for the C1 witness: length 2, and the two summed
    bytes are signature bytes 1 and 255, so the wraparound sum is 0. -/
def rsdpV2TagW1 : RsdpV2Tag :=
  RsdpV2Tag.new
    (fun i => if i.val = 0 then 1 else if i.val = 1 then 255 else 0)
    0 (fun _ => 0) 0 0 2 0 0

theorem c1_rsdpv2_checksum_iff_witness :
    rsdpV2TagW1.length ≤ 36 ∧
      (RsdpV2Tag.checksum_is_valid rsdpV2TagW1 = true ↔
        (((RsdpV2Tag.bytes rsdpV2TagW1).drop 8).take
          rsdpV2TagW1.length).sum % 256 = 0) :=
  ⟨by decide, c1_rsdpv2_checksum_iff rsdpV2TagW1 (by decide)⟩

/-- Concrete RSDP-v2 tag for the C2 counterexample: declared length 36;
    ext_checksum 220 balances the length field's low byte 36, so the
    36-byte wraparound sum is 256, i.e. 0 modulo 256. -/
def rsdpV2TagC2 : RsdpV2Tag :=
  RsdpV2Tag.new (fun _ => 0) 0 (fun _ => 0) 0 0 36 0 220

/-- A caller-validated region of only 20 ACPI bytes, smaller than the
    tag's declared length of 36. -/
def regionC2 : List Nat := ((RsdpV2Tag.bytes rsdpV2TagC2).drop 8).take 20

/-- C2 counterexample: the spec's truncation strategy would report
    lengthExceedsRegion for this tag and region, but the implemented
    checksum_is_valid has no error path at all: it performs the read over
    the range derived from the trusted length field and returns the
    boolean true. -/
theorem c2_counterexample :
    RsdpV2Tag.checksum_is_valid rsdpV2TagC2 = true ∧
      specTruncatedChecksum regionC2 rsdpV2TagC2.length =
        Except.error RsdpChecksumError.lengthExceedsRegion :=
  ⟨rfl, rfl⟩

/-- C2 amended: the truncate-and-error strategy is a design recommendation
    the code does not implement; RsdpV2Tag::checksum_is_valid trusts the
    length field directly, performing the wraparound-sum read over the
    range 8 to 8 + length and returning a plain boolean with no error
    path (the caller must bound length, per the spec's stated contract). -/
theorem c2_amended_checksum_trusts_length (t : RsdpV2Tag)
    (h : t.length ≤ 36) :
    RsdpV2Tag.checksum_is_valid t =
      (wsum8 (((RsdpV2Tag.bytes t).drop 8).take t.length) == 0) := by
  rw [RsdpV2Tag.checksum_is_valid, rsdpV2_slice_comm]

/-- Concrete RSDP-v2 tag for the C2 witness: declared length 0. -/
def rsdpV2TagW2 : RsdpV2Tag :=
  RsdpV2Tag.new (fun _ => 0) 7 (fun _ => 0) 0 0 0 0 0

theorem c2_amended_checksum_trusts_length_witness :
    rsdpV2TagW2.length ≤ 36 ∧
      RsdpV2Tag.checksum_is_valid rsdpV2TagW2 =
        (wsum8 (((RsdpV2Tag.bytes rsdpV2TagW2).drop 8).take
          rsdpV2TagW2.length) == 0) :=
  ⟨by decide, c2_amended_checksum_trusts_length rsdpV2TagW2 (by decide)⟩

/-- C9 counterexample: at a concrete input, RsdpV1Tag::new does not set the
    header size field to 28: size_of of the repr(C, align(8)) struct is 32
    because the 28 defined bytes are padded to the 8-byte alignment. -/
theorem c9_counterexample :
    (RsdpV1Tag.new (fun _ => 0) 0 (fun _ => 0) 0 0).header.size ≠ 28 := by
  decide

/-- C9 amended: the RSDP-v1 tag's defined content is 28 bytes (8-byte
    header plus 20 ACPI-defined bytes), but size_of of the type is 32 due
    to repr(C, align(8)) trailing padding, and RsdpV1Tag::new sets the
    header size field to that 32, not 28. -/
theorem c9_amended_rsdpv1_new_size (signature : Fin 8 → Nat)
    (checksum : Nat) (oem_id : Fin 6 → Nat) (revision : Nat)
    (rsdt_address : Nat) :
    (RsdpV1Tag.new signature checksum oem_id revision
        rsdt_address).header.size = 32 ∧
      RsdpV1Tag.sizeOfSelf = 32 ∧
      (RsdpV1Tag.bytes (RsdpV1Tag.new signature checksum oem_id revision
        rsdt_address)).length = 28 :=
  ⟨rfl, rfl, rfl⟩

/-- C10: RsdpV2Tag::new takes no reserved-bytes parameter and always sets
    the three reserved bytes to zero. -/
theorem c10_rsdpv2_new_reserved_zero (signature : Fin 8 → Nat)
    (checksum : Nat) (oem_id : Fin 6 → Nat) (revision : Nat)
    (rsdt_address : Nat) (length : Nat) (xsdt_address : Nat)
    (ext_checksum : Nat) (i : Fin 3) :
    (RsdpV2Tag.new signature checksum oem_id revision rsdt_address length
      xsdt_address ext_checksum)._reserved i = 0 := rfl


/-! ### Infrastructure about the UTF-8 validation loop -/

theorem step2_some {rest : List Nat} {k : Nat} (h : step2 rest = some k) :
    ∃ b1 r, rest = b1 :: r ∧ isUtf8Cont b1 = true ∧ k = 2 := by
  cases rest with
  | nil => simp [step2] at h
  | cons b1 r =>
    by_cases hc : isUtf8Cont b1
    · simp only [step2, hc, if_pos] at h
      cases h
      exact ⟨b1, r, rfl, hc, rfl⟩
    · simp [step2, hc] at h

theorem step3_some {lead : Nat} {rest : List Nat} {k : Nat}
    (h : step3 lead rest = some k) :
    ∃ b1 b2 r, rest = b1 :: b2 :: r ∧
      (utf8Cont1Ok lead b1 && isUtf8Cont b2) = true ∧ k = 3 := by
  match rest with
  | [] => simp [step3] at h
  | [b1] => simp [step3] at h
  | b1 :: b2 :: r =>
    by_cases hc : utf8Cont1Ok lead b1 && isUtf8Cont b2
    · simp only [step3, hc, if_pos] at h
      cases h
      exact ⟨b1, b2, r, rfl, hc, rfl⟩
    · simp [step3, hc] at h

theorem step4_some {lead : Nat} {rest : List Nat} {k : Nat}
    (h : step4 lead rest = some k) :
    ∃ b1 b2 b3 r, rest = b1 :: b2 :: b3 :: r ∧
      (utf8Cont1Ok lead b1 && isUtf8Cont b2 && isUtf8Cont b3) = true ∧
      k = 4 := by
  match rest with
  | [] => simp [step4] at h
  | [b1] => simp [step4] at h
  | [b1, b2] => simp [step4] at h
  | b1 :: b2 :: b3 :: r =>
    by_cases hc : utf8Cont1Ok lead b1 && isUtf8Cont b2 && isUtf8Cont b3
    · simp only [step4, hc, if_pos] at h
      cases h
      exact ⟨b1, b2, b3, r, rfl, hc, rfl⟩
    · simp [step4, hc] at h

theorem utf8StepLen_bounds {l : List Nat} {k : Nat}
    (h : utf8StepLen l = some k) : 1 ≤ k ∧ k ≤ l.length := by
  cases l with
  | nil => simp [utf8StepLen] at h
  | cons b rest =>
    simp only [utf8StepLen] at h
    split_ifs at h with h1 h2 h3 h4
    · cases h; simp
    · obtain ⟨b1, r, rfl, -, rfl⟩ := step2_some h
      simp
    · obtain ⟨b1, b2, r, rfl, -, rfl⟩ := step3_some h
      simp
    · obtain ⟨b1, b2, b3, r, rfl, -, rfl⟩ := step4_some h
      simp

theorem utf8StepLen_take {l : List Nat} {k m : Nat}
    (h : utf8StepLen l = some k) (hkm : k ≤ m) :
    utf8StepLen (l.take m) = some k := by
  have hb := utf8StepLen_bounds h
  cases l with
  | nil => simp [utf8StepLen] at h
  | cons b rest =>
    obtain ⟨m1, rfl⟩ : ∃ m1, m = m1 + 1 := ⟨m - 1, by omega⟩
    rw [List.take_succ_cons]
    simp only [utf8StepLen] at h ⊢
    split_ifs at h ⊢ with h1 h2 h3 h4
    · exact h
    · obtain ⟨b1, r, rfl, hc, rfl⟩ := step2_some h
      obtain ⟨m2, rfl⟩ : ∃ m2, m1 = m2 + 1 := ⟨m1 - 1, by omega⟩
      rw [List.take_succ_cons]
      simp [step2, hc]
    · obtain ⟨b1, b2, r, rfl, hc, rfl⟩ := step3_some h
      obtain ⟨m2, rfl⟩ : ∃ m2, m1 = m2 + 2 := ⟨m1 - 2, by omega⟩
      rw [show m2 + 2 = (m2 + 1) + 1 by omega, List.take_succ_cons,
        List.take_succ_cons]
      simp [step3, hc]
    · obtain ⟨b1, b2, b3, r, rfl, hc, rfl⟩ := step4_some h
      obtain ⟨m2, rfl⟩ : ∃ m2, m1 = m2 + 3 := ⟨m1 - 3, by omega⟩
      rw [show m2 + 3 = (m2 + 2) + 1 by omega, List.take_succ_cons,
        show m2 + 2 = (m2 + 1) + 1 by omega, List.take_succ_cons,
        List.take_succ_cons]
      simp [step4, hc]

theorem isValidUtf8_iff {l : List Nat} :
    isValidUtf8 l = true ↔ fromUtf8Fuel l.length 0 l = .ok () := by
  unfold isValidUtf8
  cases hf : fromUtf8Fuel l.length 0 l with
  | ok u => cases u; simp
  | error e => simp

theorem fromUtf8Fuel_congr : ∀ (fuel fuel2 i : Nat) (l : List Nat),
    l.length ≤ fuel → l.length ≤ fuel2 →
    fromUtf8Fuel fuel i l = fromUtf8Fuel fuel2 i l := by
  intro fuel
  induction fuel with
  | zero =>
    intro fuel2 i l h h2
    have hl : l = [] := List.length_eq_zero.mp (by omega)
    subst hl
    cases fuel2 <;> rfl
  | succ fuel ih =>
    intro fuel2 i l h h2
    cases l with
    | nil => cases fuel2 <;> rfl
    | cons b rest =>
      cases fuel2 with
      | zero => simp at h2
      | succ fuel3 =>
        simp only [fromUtf8Fuel]
        cases hk : utf8StepLen (b :: rest) with
        | none => rfl
        | some k =>
          have hb := utf8StepLen_bounds hk
          exact ih fuel3 (i + k) ((b :: rest).drop k)
            (by simp only [List.length_drop]; simp at h hb ⊢; omega)
            (by simp only [List.length_drop]; simp at h2 hb ⊢; omega)

theorem fromUtf8Fuel_shift : ∀ (fuel j i : Nat) (l : List Nat),
    fromUtf8Fuel fuel (j + i) l =
      (fromUtf8Fuel fuel i l).mapError (fun d => j + d) := by
  intro fuel
  induction fuel with
  | zero =>
    intro j i l
    cases l <;> simp [fromUtf8Fuel, Except.mapError]
  | succ fuel ih =>
    intro j i l
    cases l with
    | nil => simp [fromUtf8Fuel, Except.mapError]
    | cons b rest =>
      simp only [fromUtf8Fuel]
      cases hk : utf8StepLen (b :: rest) with
      | none => simp [Except.mapError]
      | some k =>
        have hrec := ih j (i + k) ((b :: rest).drop k)
        rw [show j + (i + k) = j + i + k by omega] at hrec
        exact hrec

theorem fromUtf8Fuel_error_spec : ∀ (fuel : Nat) (l : List Nat) (d : Nat),
    l.length ≤ fuel → fromUtf8Fuel fuel 0 l = .error d →
    isValidUtf8 (l.take d) = true ∧ utf8StepLen (l.drop d) = none ∧
      d < l.length := by
  intro fuel
  induction fuel with
  | zero =>
    intro l d h he
    have hl : l = [] := List.length_eq_zero.mp (by omega)
    subst hl
    simp [fromUtf8Fuel] at he
  | succ fuel ih =>
    intro l d h he
    cases l with
    | nil => simp [fromUtf8Fuel] at he
    | cons b rest =>
      simp only [fromUtf8Fuel] at he
      cases hk : utf8StepLen (b :: rest) with
      | none =>
        rw [hk] at he
        have he2 : (Except.error 0 : Except Nat Unit) = .error d := he
        cases he2
        exact ⟨rfl, hk, by simp⟩
      | some k =>
        rw [hk] at he
        have hb := utf8StepLen_bounds hk
        have he2 : fromUtf8Fuel fuel (0 + k) ((b :: rest).drop k) =
            .error d := he
        rw [show (0:Nat) + k = k + 0 by omega, fromUtf8Fuel_shift] at he2
        cases hrec : fromUtf8Fuel fuel 0 ((b :: rest).drop k) with
        | ok u =>
          rw [hrec] at he2
          cases u
          simp [Except.mapError] at he2
        | error d1 =>
          rw [hrec] at he2
          simp only [Except.mapError] at he2
          have hd : d = k + d1 := by cases he2; rfl
          subst hd
          have hlen : ((b :: rest).drop k).length ≤ fuel := by
            rw [List.length_drop]
            have := hb.1
            have := hb.2
            simp only [List.length_cons] at h ⊢
            omega
          obtain ⟨hv, hs, hlt⟩ := ih ((b :: rest).drop k) d1 hlen hrec
          have hlt2 : k + d1 < (b :: rest).length := by
            rw [List.length_drop] at hlt
            omega
          refine ⟨?_, ?_, hlt2⟩
          · rw [isValidUtf8_iff]
            have htlen : ((b :: rest).take (k + d1)).length = k + d1 := by
              rw [List.length_take]
              omega
            rw [htlen]
            obtain ⟨n, hn⟩ : ∃ n, k + d1 = n + 1 :=
              ⟨k + d1 - 1, by have := hb.1; omega⟩
            rw [hn, List.take_succ_cons]
            have hks : utf8StepLen (b :: rest.take n) = some k := by
              have h2 := utf8StepLen_take hk (show k ≤ k + d1 by omega)
              rw [hn, List.take_succ_cons] at h2
              exact h2
            simp only [fromUtf8Fuel]
            rw [hks]
            show fromUtf8Fuel n (0 + k) ((b :: rest.take n).drop k) = .ok ()
            have hdt : (b :: rest.take n).drop k =
                ((b :: rest).drop k).take d1 := by
              rw [← List.take_succ_cons, ← hn, List.drop_take]
              congr 1
              omega
            rw [hdt, show (0:Nat) + k = k + 0 by omega, fromUtf8Fuel_shift]
            have hvv := isValidUtf8_iff.mp hv
            have hlen2 : (((b :: rest).drop k).take d1).length = d1 := by
              rw [List.length_take]
              omega
            rw [hlen2] at hvv
            rw [fromUtf8Fuel_congr n d1 0 (((b :: rest).drop k).take d1)
              (by rw [hlen2]; omega) (by rw [hlen2])]
            rw [hvv]
            rfl
          · rw [← List.drop_drop]
            exact hs

/-! ### Null-terminator bookkeeping -/

theorem firstNullIdx_of_no_null {l : List Nat} (h : ∀ b ∈ l, b ≠ 0) :
    firstNullIdx l = none := by
  induction l with
  | nil => rfl
  | cons b r ih =>
    have hb : ¬ b = 0 := h b (by simp)
    simp only [firstNullIdx, if_neg hb]
    rw [ih (fun x hx => h x (by simp [hx]))]
    rfl

theorem firstNullIdx_append_zero {l : List Nat} (h : ∀ b ∈ l, b ≠ 0) :
    firstNullIdx (l ++ [0]) = some l.length := by
  induction l with
  | nil => rfl
  | cons b r ih =>
    have hb : ¬ b = 0 := h b (by simp)
    simp only [List.cons_append, firstNullIdx, if_neg hb, List.append_eq]
    rw [ih (fun x hx => h x (by simp [hx]))]
    rfl

theorem firstNullIdx_eq_some {l : List Nat} {p : Nat} (hp : p < l.length)
    (h0 : l.getD p 0 = 0) (hmin : ∀ j, j < p → l.getD j 0 ≠ 0) :
    firstNullIdx l = some p := by
  induction l generalizing p with
  | nil => simp at hp
  | cons b r ih =>
    cases p with
    | zero =>
      rw [List.getD_cons_zero] at h0
      simp [firstNullIdx, h0]
    | succ q =>
      have hb : ¬ b = 0 := by
        have h1 := hmin 0 (by omega)
        rwa [List.getD_cons_zero] at h1
      have hr : firstNullIdx r = some q := by
        apply ih
        · simpa using hp
        · rwa [List.getD_cons_succ] at h0
        · intro j hj
          have h1 := hmin (j + 1) (by omega)
          rwa [List.getD_cons_succ] at h1
      simp [firstNullIdx, hb, hr]

theorem getLast?_ne_some_zero {l : List Nat} (h : ∀ b ∈ l, b ≠ 0) :
    ¬ l.getLast? = some 0 := by
  intro hc
  exact h 0 (List.mem_of_mem_getLast? hc) rfl

theorem rustFromUtf8_ok_of_valid {l : List Nat}
    (h : isValidUtf8 l = true) : rustFromUtf8 l = .ok l := by
  rw [isValidUtf8_iff] at h
  unfold rustFromUtf8
  rw [h]

theorem isValidUtf8_false {l : List Nat} (h : isValidUtf8 l = false) :
    ∃ d, fromUtf8Fuel l.length 0 l = .error d := by
  unfold isValidUtf8 at h
  cases hf : fromUtf8Fuel l.length 0 l with
  | ok u =>
    rw [hf] at h
    cases u
    simp at h
  | error e => exact ⟨e, rfl⟩

theorem rustFromUtf8_error_iff {l : List Nat} {d : Nat} :
    rustFromUtf8 l = .error d ↔ fromUtf8Fuel l.length 0 l = .error d := by
  unfold rustFromUtf8
  cases hf : fromUtf8Fuel l.length 0 l with
  | ok u => cases u; simp
  | error e => simp

/-! ### Claims about the boot loader name tag -/

/-- C4: for every payload, name() returns the UTF-8 validation of the bytes
    strictly before the first null byte when a null byte exists, and the
    UTF-8 validation of the entire slice when no null byte exists; with no
    terminator, an otherwise valid payload decodes to the full payload. -/
theorem c4_name_null_split (t : BootLoaderNameTag) :
    (∀ p, p < t.name.length → t.name.getD p 0 = 0 →
      (∀ j, j < p → t.name.getD j 0 ≠ 0) →
      BootLoaderNameTag.getName t = rustFromUtf8 (t.name.take p)) ∧
    ((∀ b ∈ t.name, b ≠ 0) →
      BootLoaderNameTag.getName t = rustFromUtf8 t.name) ∧
    ((∀ b ∈ t.name, b ≠ 0) → isValidUtf8 t.name = true →
      BootLoaderNameTag.getName t = .ok t.name) := by
  refine ⟨?_, ?_, ?_⟩
  · intro p hp h0 hmin
    unfold BootLoaderNameTag.getName Tag.get_dst_str_slice strSliceUntilNull
    rw [firstNullIdx_eq_some hp h0 hmin]
  · intro h
    unfold BootLoaderNameTag.getName Tag.get_dst_str_slice strSliceUntilNull
    rw [firstNullIdx_of_no_null h]
  · intro h hv
    unfold BootLoaderNameTag.getName Tag.get_dst_str_slice strSliceUntilNull
    rw [firstNullIdx_of_no_null h]
    exact rustFromUtf8_ok_of_valid hv

/-- Concrete tag holding the bytes of the text hello plus a terminator. -/
def tagHello : BootLoaderNameTag := ⟨2, 14, [104, 101, 108, 108, 111, 0]⟩

theorem c4_name_null_split_witness :
    BootLoaderNameTag.getName tagHello =
      rustFromUtf8 (tagHello.name.take 5) :=
  (c4_name_null_split tagHello).1 5 (by decide) (by decide) (by decide)

/-- C5: round-trip law: for every text with no null byte (a Rust str, hence
    valid UTF-8), decoding the tag built by BootLoaderNameTag::new with
    name() yields exactly the original text. -/
theorem c5_roundtrip (s : List Nat) (hnz : ∀ b ∈ s, b ≠ 0)
    (hv : isValidUtf8 s = true) :
    BootLoaderNameTag.getName (BootLoaderNameTag.new s) = .ok s := by
  have hlast := getLast?_ne_some_zero hnz
  have hname : (BootLoaderNameTag.new s).name = s ++ [0] := by
    simp [BootLoaderNameTag.new, hlast]
  unfold BootLoaderNameTag.getName Tag.get_dst_str_slice strSliceUntilNull
  rw [hname, firstNullIdx_append_zero hnz]
  show rustFromUtf8 ((s ++ [0]).take s.length) = Except.ok s
  rw [List.take_left]
  exact rustFromUtf8_ok_of_valid hv

theorem c5_roundtrip_witness :
    BootLoaderNameTag.getName (BootLoaderNameTag.new [104, 105]) =
      .ok [104, 105] :=
  c5_roundtrip [104, 105] (by decide) (by rfl)

/-- C6: terminator tolerance of the builder: when the input already ends
    with a null byte, new() keeps the bytes unchanged and the size field is
    8 plus the input length; otherwise exactly one null byte is appended
    and the size field is 8 plus the input length plus 1. -/
theorem c6_terminator (s : List Nat) :
    (s.getLast? = some 0 →
      (BootLoaderNameTag.new s).name = s ∧
      (BootLoaderNameTag.new s).size = 8 + s.length) ∧
    (¬ s.getLast? = some 0 →
      (BootLoaderNameTag.new s).name = s ++ [0] ∧
      (BootLoaderNameTag.new s).size = 8 + s.length + 1) := by
  constructor
  · intro h
    constructor
    · simp [BootLoaderNameTag.new, h]
    · simp [BootLoaderNameTag.new, METADATA_SIZE, h]
  · intro h
    constructor
    · simp [BootLoaderNameTag.new, h]
    · simp [BootLoaderNameTag.new, METADATA_SIZE, h]
      omega

theorem c6_terminator_witness :
    ((BootLoaderNameTag.new [65, 0]).name = [65, 0] ∧
      (BootLoaderNameTag.new [65, 0]).size = 8 + [65, 0].length) ∧
    ((BootLoaderNameTag.new [66]).name = [66] ++ [0] ∧
      (BootLoaderNameTag.new [66]).size = 8 + [66].length + 1) :=
  ⟨(c6_terminator [65, 0]).1 (by rfl), (c6_terminator [66]).2 (by decide)⟩

/-- C7: a payload whose bytes before the first null byte are invalid UTF-8
    never decodes to a string (and the total model never panics): name()
    returns an error, and the carried offset d marks the first invalid
    sequence: the bytes before d are valid UTF-8 and the sequence starting
    at d is not a valid UTF-8 sequence. -/
theorem c7_invalid_utf8 (t : BootLoaderNameTag) (d : Nat)
    (hinv : isValidUtf8 (strSliceUntilNull t.name) = false) :
    (BootLoaderNameTag.getName t).isOk = false ∧
    (BootLoaderNameTag.getName t = .error d →
      isValidUtf8 ((strSliceUntilNull t.name).take d) = true ∧
      utf8StepLen ((strSliceUntilNull t.name).drop d) = none ∧
      d < (strSliceUntilNull t.name).length) := by
  constructor
  · obtain ⟨e, he⟩ := isValidUtf8_false hinv
    unfold BootLoaderNameTag.getName Tag.get_dst_str_slice rustFromUtf8
    rw [he]
    rfl
  · intro he
    have he2 : rustFromUtf8 (strSliceUntilNull t.name) = .error d := he
    rw [rustFromUtf8_error_iff] at he2
    exact fromUtf8Fuel_error_spec _ _ d (le_refl _) he2

/-- Concrete tag whose payload byte 0xFF is invalid UTF-8. -/
def tagBadUtf8 : BootLoaderNameTag := ⟨2, 10, [255, 0]⟩

theorem c7_invalid_utf8_witness :
    (BootLoaderNameTag.getName tagBadUtf8).isOk = false ∧
    (isValidUtf8 ((strSliceUntilNull tagBadUtf8.name).take 0) = true ∧
      utf8StepLen ((strSliceUntilNull tagBadUtf8.name).drop 0) = none ∧
      0 < (strSliceUntilNull tagBadUtf8.name).length) :=
  ⟨(c7_invalid_utf8 tagBadUtf8 0 (by rfl)).1,
   (c7_invalid_utf8 tagBadUtf8 0 (by rfl)).2 (by rfl)⟩

/-- C8: dst_size returns header size minus 8 under the traversal's
    precondition size at least 8 (the assertion branch is unreachable
    there), and signals a failed assertion, not a recoverable value, when
    the size is below 8. -/
theorem c8_dst_size (base_tag : Tag) :
    (8 ≤ base_tag.size →
      BootLoaderNameTag.dst_size base_tag = .ok (base_tag.size - 8)) ∧
    (base_tag.size < 8 →
      BootLoaderNameTag.dst_size base_tag = .error .assertionFailed) := by
  constructor
  · intro h
    unfold BootLoaderNameTag.dst_size
    rw [if_pos (show METADATA_SIZE ≤ base_tag.size from h)]
    rfl
  · intro h
    unfold BootLoaderNameTag.dst_size
    rw [if_neg (show ¬ METADATA_SIZE ≤ base_tag.size by
      unfold METADATA_SIZE; omega)]

theorem c8_dst_size_witness :
    BootLoaderNameTag.dst_size ⟨2, 14⟩ = .ok 6 ∧
    BootLoaderNameTag.dst_size ⟨2, 3⟩ = .error .assertionFailed :=
  ⟨(c8_dst_size ⟨2, 14⟩).1 (by decide), (c8_dst_size ⟨2, 3⟩).2 (by decide)⟩
